import Mathlib

/-!
Verification of the admin registry of the gmqtt broker
(`plugin/admin/store.go`, with its gRPC callers in `plugin/admin/client.go`).

The Go source stores clients and subscriptions in a `quickList`: a
`container/list` doubly linked list of values together with a hash index
from string keys to list elements.  Every element of the rows list is
reachable from exactly one index key (elements are created only in the
`set` of a fresh key and destroyed only by `remove` of that key), so the
whole state is faithfully represented as the ordered list of
(key, value) pairs; the index is the first-occurrence lookup on that
list.  Go `uint` arithmetic is modelled as `Nat` with explicit
wrap-around modulo `2 ^ 64` exactly where the Go code can overflow
(`getOffsetN`, the `offset + n` bound inside `iterate`), and the
`int(offset)` conversion in `iterate`'s guard is modelled as two's
complement reinterpretation.
-/

namespace GmqttAdmin

/-- Cardinality of Go's `uint`/`int` word (64-bit platform). -/
def uintCard : Nat := 2 ^ 64

/-- Go cast `uint32(x)`: truncation modulo `2 ^ 32`. -/
def toUInt32 (x : Nat) : Nat := x % 2 ^ 32

/-- Go cast `int32(x)` of a non-negative value: two's complement
reinterpretation of the low 32 bits. -/
def toInt32 (x : Nat) : Int :=
  if x % 2 ^ 32 < 2 ^ 31 then (x % 2 ^ 32 : Int) else (x % 2 ^ 32 : Int) - 2 ^ 32

/-- Go conversion `int(u)` of a `uint`: two's complement reinterpretation
of the 64-bit word, as used in `quickList.iterate`'s length guard. -/
def toInt64 (u : Nat) : Int :=
  if u < 2 ^ 63 then (u : Int) else (u : Int) - (2 ^ 64 : Int)

/-! ## The protobuf record types filled in by store.go -/

/-- The `Client` protobuf message, with exactly the fields `store.go`
writes (`newClientInfo`, `fillClientInfo`).  Timestamps are abstract
`Nat` instants; `DisconnectedAt` is nullable. -/
structure Client where
  ClientId : String
  Username : String
  KeepAlive : Int
  Version : Int
  RemoteAddr : String
  LocalAddr : String
  ConnectedAt : Nat
  DisconnectedAt : Option Nat
  SessionExpiry : Nat
  MaxInflight : Nat
  MaxQueue : Nat
  SubscriptionsCurrent : Nat
  SubscriptionsTotal : Nat
  PacketsReceivedBytes : Nat
  PacketsReceivedNums : Nat
  PacketsSendBytes : Nat
  PacketsSendNums : Nat
  MessageDropped : Nat
  InflightLen : Nat
  QueueLen : Nat
  deriving Repr, DecidableEq

/-- The `Subscription` protobuf message, with exactly the fields
`addSubscription` writes. -/
structure Subscription where
  TopicName : String
  Id : Nat
  Qos : Nat
  NoLocal : Bool
  RetainAsPublished : Bool
  RetainHandling : Nat
  ClientId : String
  deriving Repr, DecidableEq

/-! ## External collaborator types (declared outside src/) -/

/-- Modelled from the spec: the connection/session source supplies, per
connection, identity, protocol version, endpoints, session parameters
(keep-alive interval, session-expiry interval, maximum in-flight count,
maximum queued-message count, receive-maximum) and the connect
timestamp (spec §3, §6).  The concrete `server.ClientOptions` type is
not under src/; only its use in `newClientInfo` is. -/
structure ClientOptions where
  ClientID : String
  Username : String
  KeepAlive : Nat
  SessionExpiry : Nat
  MaxInflight : Nat
  MaxQueue : Nat
  ReceiveMax : Nat
  deriving Repr, DecidableEq

/-- Modelled from the spec: a transport connection exposing its remote
and local addresses (already rendered as strings, as
`RemoteAddr().String()` does). -/
structure Connection where
  remoteAddr : String
  localAddr : String
  deriving Repr, DecidableEq

/-- Modelled from the spec: a live `server.Client` as seen by
`newClientInfo` — its options, protocol version, connection and
connect timestamp. -/
structure ServerClient where
  clientOptions : ClientOptions
  version : Nat
  connection : Connection
  connectedAt : Nat
  deriving Repr, DecidableEq

/-- Modelled from the spec: the record returned by the live statistics
source for one client — current/total subscription counts, byte/packet
counters, drop count and in-flight/queue depths (spec §4.4, §6),
matching the fields `fillClientInfo` reads. -/
structure ClientStats where
  subscriptionsCurrent : Nat
  subscriptionsTotal : Nat
  bytesReceived : Nat
  receivedTotal : Nat
  bytesSent : Nat
  sentTotal : Nat
  droppedTotal : Nat
  inflightCurrent : Nat
  queuedCurrent : Nat
  deriving Repr, DecidableEq

/-- Modelled from the spec: the live statistics source
(`server.StatsReader.GetClientStats`), keyed by client identifier,
returning current counters or "no data" (the `ok` boolean). -/
def StatsReader : Type := String → Option ClientStats

/-- Modelled from the spec: a broker-side subscription as passed to
`addSubscription` — the full topic filter (`GetFullTopicName`),
subscription identifier, QoS, no-local, retain-as-published and
retain-handling. -/
structure GmqttSubscription where
  topicName : String
  ID : Nat
  QoS : Nat
  NoLocal : Bool
  RetainAsPublished : Bool
  RetainHandling : Nat
  deriving Repr, DecidableEq

/-- Go `sub.GetFullTopicName()`: the full topic filter of the subscription. -/
def GmqttSubscription.GetFullTopicName (sub : GmqttSubscription) : String :=
  sub.topicName

/-! ## quickList (store.go lines 59-103) -/

/-- The `quickList` state: the rows in insertion order, each row paired
with the index key owning it (see the header comment for why this pair
list is the faithful state of the map-plus-linked-list original). -/
abbrev quickList (α : Type) : Type := List (String × α)

namespace quickList

/-- Go `newQuickList()`: empty index, empty rows. -/
def newQuickList {α : Type} : quickList α := []

/-- Go `set(id, value)`: if the index holds `id`, overwrite that element's
value in place (position preserved); otherwise push a new element at
the back and index it under `id`. -/
def set {α : Type} : quickList α → String → α → quickList α
  | [], id, value => [(id, value)]
  | p :: rest, id, value =>
    if p.1 = id then (id, value) :: rest else p :: set rest id value

/-- Go `remove(id)`: if the index holds `id`, unlink that element from the
rows; then delete the index entry.  (The Go function also returns the
detached element; no caller in store.go uses it.) -/
def remove {α : Type} : quickList α → String → quickList α
  | [], _ => []
  | p :: rest, id => if p.1 = id then rest else p :: remove rest id

/-- Go `getByID(id)`: the element the index holds for `id`, or absent. -/
def getByID {α : Type} : quickList α → String → Option α
  | [], _ => none
  | p :: rest, id => if p.1 = id then some p.2 else getByID rest id

/-- The loop body of `iterate`: walk the rows with the running counter
`i`, collecting (in order) every element whose position satisfies
`offset ≤ i ∧ i < s` where `s` is the already-wrapped `offset + n`,
and break as soon as `i = s`.  The counter itself never wraps because
it is bounded by the rows' length. -/
def iterGo {α : Type} (offset s : Nat) : List (String × α) → Nat → List (String × α)
  | [], _ => []
  | e :: rest, i =>
    let visited := if offset ≤ i ∧ i < s then [e] else []
    if i = s then visited else visited ++ iterGo offset s rest (i + 1)

/-- Go `iterate(fn, offset, n)`: return early when `rows.Len() < int(offset)`
(two's complement conversion of `offset`), otherwise run the loop.
The Go callback `fn` is modelled by returning the list of visited
elements in visit order; callers fold their effect over it. -/
def iterate {α : Type} (q : quickList α) (offset n : Nat) : List (String × α) :=
  if (q.length : Int) < toInt64 offset then []
  else iterGo offset ((offset + n) % uintCard) q 0

/-- Keys of the registry, in insertion order. -/
def keysOf {α : Type} (q : quickList α) : List String := q.map Prod.fst

/-- Well-formedness: the index maps each key to at most one row. Every
state reachable from `newQuickList` by `set`/`remove` satisfies it. -/
def WF {α : Type} (q : quickList α) : Prop := q.keysOf.Nodup

instance WFDecidable {α : Type} (q : quickList α) : Decidable (WF q) :=
  List.nodupDecidable _

end quickList

/-! ## The store (store.go lines 15-214) -/

/-- The `store` state: the client registry, the subscription registry and
the injected statistics source.  The two mutexes serialize the public
operations; each operation below is one full critical section, so the
sequential state transformer is its observable behaviour. -/
structure Store where
  clientList : quickList Client
  subscriptions : quickList Subscription
  statsReader : StatsReader

/-- Go `newStore(statsReader)`: both registries empty. -/
def newStore (statsReader : StatsReader) : Store :=
  { clientList := quickList.newQuickList
    subscriptions := quickList.newQuickList
    statsReader := statsReader }

/-- The `subInfo` record `addSubscription` builds (store.go lines 37-45). -/
def subInfoFor (clientID : String) (sub : GmqttSubscription) : Subscription :=
  { TopicName := sub.GetFullTopicName
    Id := sub.ID
    Qos := toUInt32 sub.QoS
    NoLocal := sub.NoLocal
    RetainAsPublished := sub.RetainAsPublished
    RetainHandling := toUInt32 sub.RetainHandling
    ClientId := clientID }

/-- Go `addSubscription(clientID, sub)`: build the `Subscription` record and
upsert it under the concatenated key `clientID + "_" + fullTopicName`. -/
def Store.addSubscription (s : Store) (clientID : String) (sub : GmqttSubscription) : Store :=
  { s with
    subscriptions :=
      s.subscriptions.set (clientID ++ "_" ++ sub.GetFullTopicName)
        (subInfoFor clientID sub) }

/-- Go `removeSubscription(clientID, topicName)`: drop the entry under the
concatenated key. -/
def Store.removeSubscription (s : Store) (clientID topicName : String) : Store :=
  { s with subscriptions := s.subscriptions.remove (clientID ++ "_" ++ topicName) }

/-- Go `newClientInfo(client)`: project the live connection into a fresh
`Client` record.  Fields the Go struct literal leaves unset are the
protobuf zero values (stats block all zero); `DisconnectedAt` is
explicitly nil.  Note `MaxQueue` is filled from the options'
`ReceiveMax`. -/
def newClientInfo (client : ServerClient) : Client :=
  let clientOptions := client.clientOptions
  { ClientId := clientOptions.ClientID
    Username := clientOptions.Username
    KeepAlive := toInt32 clientOptions.KeepAlive
    Version := toInt32 client.version
    RemoteAddr := client.connection.remoteAddr
    LocalAddr := client.connection.localAddr
    ConnectedAt := client.connectedAt
    DisconnectedAt := none
    SessionExpiry := clientOptions.SessionExpiry
    MaxInflight := toUInt32 clientOptions.MaxInflight
    MaxQueue := toUInt32 clientOptions.ReceiveMax
    SubscriptionsCurrent := 0
    SubscriptionsTotal := 0
    PacketsReceivedBytes := 0
    PacketsReceivedNums := 0
    PacketsSendBytes := 0
    PacketsSendNums := 0
    MessageDropped := 0
    InflightLen := 0
    QueueLen := 0 }

/-- Go `addClient(client)`: insert the projected record keyed by its client
identifier. -/
def Store.addClient (s : Store) (client : ServerClient) : Store :=
  let c := newClientInfo client
  { s with clientList := s.clientList.set c.ClientId c }

/-- Go `setClientDisconnected(clientID)`: stamp the stored record's
`DisconnectedAt` with the current time; absent record is a no-op.  The
Go code mutates the record through the element pointer, which is the
in-place `set` of the present key; `timestamppb.Now()` is the explicit
`now` argument. -/
def Store.setClientDisconnected (s : Store) (clientID : String) (now : Nat) : Store :=
  match s.clientList.getByID clientID with
  | none => s
  | some c =>
    { s with clientList := s.clientList.set clientID { c with DisconnectedAt := some now } }

/-- Go `removeClient(clientID)`: unconditionally drop the record. -/
def Store.removeClient (s : Store) (clientID : String) : Store :=
  { s with clientList := s.clientList.remove clientID }

/-- Go `fillClientInfo(c, stsReader)`: overwrite the record's stats block
with the source's current counters for its client identifier; when the
source reports no data (`!ok`), leave the record untouched.  (The Go
nil-receiver early return is handled at the call sites, which pass a
record only when one exists.) -/
def fillClientInfo (c : Client) (stsReader : StatsReader) : Client :=
  match stsReader c.ClientId with
  | none => c
  | some sts =>
    { c with
      SubscriptionsCurrent := toUInt32 sts.subscriptionsCurrent
      SubscriptionsTotal := toUInt32 sts.subscriptionsTotal
      PacketsReceivedBytes := sts.bytesReceived
      PacketsReceivedNums := sts.receivedTotal
      PacketsSendBytes := sts.bytesSent
      PacketsSendNums := sts.sentTotal
      MessageDropped := sts.droppedTotal
      InflightLen := toUInt32 sts.inflightCurrent
      QueueLen := toUInt32 sts.queuedCurrent }

/-- Go `getClientByIDLocked(clientID)`: plain index lookup. -/
def Store.getClientByIDLocked (s : Store) (clientID : String) : Option Client :=
  s.clientList.getByID clientID

/-- Go `GetClientByID(clientID)`: look the record up and enrich it.  The Go
`fillClientInfo` writes through the stored pointer, so the enriched
record is both returned and persisted in place (the in-place `set` of
the present key); an absent identifier returns nil and leaves the
store untouched. -/
def Store.GetClientByID (s : Store) (clientID : String) : Option Client × Store :=
  match s.clientList.getByID clientID with
  | none => (none, s)
  | some c =>
    let c2 := fillClientInfo c s.statsReader
    (some c2, { s with clientList := s.clientList.set clientID c2 })

/-- Go `getOffsetN(page, pageSize)`: `offset = (page-1)*pageSize` in `uint`
arithmetic — `page - 1` and the product both wrap modulo `2 ^ 64`. -/
def getOffsetN (page pageSize : Nat) : Nat × Nat :=
  (((page + (uintCard - 1)) * pageSize) % uintCard, pageSize)

/-- Go `GetClients(page, pageSize)`: iterate the window; for every visited
element the callback enriches the stored record in place (written back
through its key, which points at that same element) and appends the
very same record to the result.  Returns the result slice, the
`uint32`-cast row count, and a nil error. -/
def Store.GetClients (s : Store) (page pageSize : Nat) :
    (List Client × Nat × Option String) × Store :=
  let offn := getOffsetN page pageSize
  let visited := s.clientList.iterate offn.1 offn.2
  let rs := visited.map fun p => fillClientInfo p.2 s.statsReader
  let clientList2 :=
    visited.foldl (fun q p => q.set p.1 (fillClientInfo p.2 s.statsReader)) s.clientList
  ((rs, toUInt32 clientList2.length, none), { s with clientList := clientList2 })

/-- Go `GetSubscriptions(page, pageSize)`: iterate the window collecting the
stored records; no enrichment, no state change.  Returns the result
slice, the `uint32`-cast row count, and a nil error. -/
def Store.GetSubscriptions (s : Store) (page pageSize : Nat) :
    List Subscription × Nat × Option String :=
  let offn := getOffsetN page pageSize
  let visited := s.subscriptions.iterate offn.1 offn.2
  ((visited.map Prod.snd), toUInt32 s.subscriptions.length, none)

/-! ## quickList lemmas -/

namespace quickList

variable {α : Type}

theorem keysOf_length (q : quickList α) : (keysOf q).length = q.length :=
  List.length_map _ _

@[simp] theorem keysOf_nil : keysOf ([] : quickList α) = [] := rfl

@[simp] theorem keysOf_cons (p : String × α) (q : quickList α) :
    keysOf (p :: q) = p.1 :: keysOf q := rfl

theorem WF_cons_iff (p : String × α) (q : quickList α) :
    WF (p :: q) ↔ p.1 ∉ keysOf q ∧ WF q := by
  unfold WF
  rw [keysOf_cons]
  exact List.nodup_cons

theorem getByID_cons (p : String × α) (q : quickList α) (k : String) :
    getByID (p :: q) k = if p.1 = k then some p.2 else getByID q k := rfl

theorem set_cons (p : String × α) (q : quickList α) (k : String) (v : α) :
    set (p :: q) k v = if p.1 = k then (k, v) :: q else p :: set q k v := rfl

theorem remove_cons (p : String × α) (q : quickList α) (k : String) :
    remove (p :: q) k = if p.1 = k then q else p :: remove q k := rfl

theorem getByID_set_self (q : quickList α) (k : String) (v : α) :
    (q.set k v).getByID k = some v := by
  induction q with
  | nil => simp [set, getByID]
  | cons p rest ih =>
    by_cases h : p.1 = k
    · rw [set_cons, if_pos h, getByID_cons, if_pos rfl]
    · rw [set_cons, if_neg h, getByID_cons, if_neg h, ih]

theorem getByID_set_ne (q : quickList α) {k k' : String} (v : α) (h : k' ≠ k) :
    (q.set k v).getByID k' = q.getByID k' := by
  induction q with
  | nil =>
    simp only [set, getByID]
    rw [if_neg (fun hh : k = k' => h hh.symm)]
  | cons p rest ih =>
    by_cases hp : p.1 = k
    · subst hp
      rw [set_cons, if_pos rfl, getByID_cons, getByID_cons,
        if_neg (fun hh : p.1 = k' => h hh.symm)]
      rw [if_neg (fun hh : p.1 = k' => h hh.symm)]
    · rw [set_cons, if_neg hp, getByID_cons, getByID_cons, ih]

theorem keysOf_set (q : quickList α) (k : String) (v : α) :
    keysOf (q.set k v) = if k ∈ keysOf q then keysOf q else keysOf q ++ [k] := by
  induction q with
  | nil => simp [set]
  | cons p rest ih =>
    by_cases h : p.1 = k
    · rw [set_cons, if_pos h, keysOf_cons, keysOf_cons, h,
        if_pos (List.mem_cons_self k (keysOf rest))]
    · have hne : ¬k = p.1 := fun hh => h hh.symm
      rw [set_cons, if_neg h, keysOf_cons, keysOf_cons, ih]
      by_cases hm : k ∈ keysOf rest
      · rw [if_pos hm, if_pos (List.mem_cons_of_mem p.1 hm)]
      · rw [if_neg hm, if_neg (by
          rw [List.mem_cons]
          push_neg
          exact ⟨hne, hm⟩), List.cons_append]

theorem mem_keysOf_set_self (q : quickList α) (k : String) (v : α) :
    k ∈ keysOf (q.set k v) := by
  rw [keysOf_set]
  by_cases h : k ∈ keysOf q
  · rwa [if_pos h]
  · rw [if_neg h]
    exact List.mem_append_right _ (List.mem_singleton.mpr rfl)

theorem set_eq_append_of_not_mem (q : quickList α) {k : String} (v : α)
    (h : k ∉ keysOf q) : q.set k v = q ++ [(k, v)] := by
  induction q with
  | nil => simp [set]
  | cons p rest ih =>
    rw [keysOf_cons, List.mem_cons] at h
    push_neg at h
    rw [set_cons, if_neg (fun hh : p.1 = k => h.1 hh.symm), ih h.2, List.cons_append]

theorem length_set_of_mem (q : quickList α) {k : String} (v : α)
    (h : k ∈ keysOf q) : (q.set k v).length = q.length := by
  have hk := keysOf_set q k v
  rw [if_pos h] at hk
  rw [← keysOf_length, hk, keysOf_length]

theorem WF_set (q : quickList α) (k : String) (v : α) (hwf : WF q) :
    WF (q.set k v) := by
  unfold WF
  rw [keysOf_set]
  by_cases h : k ∈ keysOf q
  · rwa [if_pos h]
  · rw [if_neg h]
    exact List.Nodup.append hwf (List.nodup_singleton k) (by simpa using h)

theorem remove_eq_self_of_not_mem (q : quickList α) {k : String}
    (h : k ∉ keysOf q) : q.remove k = q := by
  induction q with
  | nil => simp [remove]
  | cons p rest ih =>
    rw [keysOf_cons, List.mem_cons] at h
    push_neg at h
    rw [remove_cons, if_neg (fun hh : p.1 = k => h.1 hh.symm), ih h.2]

theorem remove_sublist (q : quickList α) (k : String) :
    List.Sublist (q.remove k) q := by
  induction q with
  | nil => simp [remove]
  | cons p rest ih =>
    by_cases h : p.1 = k
    · rw [remove_cons, if_pos h]
      exact List.sublist_cons_self p rest
    · rw [remove_cons, if_neg h]
      exact ih.cons₂ p

theorem WF_remove (q : quickList α) (k : String) (hwf : WF q) :
    WF (q.remove k) :=
  List.Nodup.sublist ((remove_sublist q k).map Prod.fst) hwf

theorem not_mem_keysOf_remove (q : quickList α) (k : String) (hwf : WF q) :
    k ∉ keysOf (q.remove k) := by
  induction q with
  | nil => simp [remove]
  | cons p rest ih =>
    rcases (WF_cons_iff p rest).mp hwf with ⟨hnotin, hrest⟩
    by_cases h : p.1 = k
    · subst h
      rw [remove_cons, if_pos rfl]
      exact hnotin
    · rw [remove_cons, if_neg h, keysOf_cons, List.mem_cons]
      push_neg
      exact ⟨fun hh => h hh.symm, ih hrest⟩

theorem getByID_eq_none_iff (q : quickList α) (k : String) :
    q.getByID k = none ↔ k ∉ keysOf q := by
  induction q with
  | nil => simp [getByID]
  | cons p rest ih =>
    rw [getByID_cons, keysOf_cons, List.mem_cons]
    by_cases h : p.1 = k
    · rw [if_pos h]
      simp [h]
    · rw [if_neg h, ih]
      push_neg
      constructor
      · exact fun hh => ⟨fun hc => h hc.symm, hh⟩
      · exact fun hh => hh.2

theorem getByID_remove_self (q : quickList α) (k : String) (hwf : WF q) :
    (q.remove k).getByID k = none :=
  (getByID_eq_none_iff _ _).mpr (not_mem_keysOf_remove q k hwf)

theorem getByID_remove_ne (q : quickList α) {k k' : String} (h : k' ≠ k) :
    (q.remove k).getByID k' = q.getByID k' := by
  induction q with
  | nil => simp [remove]
  | cons p rest ih =>
    by_cases hp : p.1 = k
    · subst hp
      rw [remove_cons, if_pos rfl, getByID_cons,
        if_neg (fun hh : p.1 = k' => h hh.symm)]
    · rw [remove_cons, if_neg hp, getByID_cons, getByID_cons, ih]

theorem keysOf_append (q q' : quickList α) :
    keysOf (q ++ q') = keysOf q ++ keysOf q' :=
  List.map_append _ _ _

theorem iterGo_of_le {offset s : Nat} (h : s ≤ offset) (l : List (String × α)) :
    ∀ i, iterGo offset s l i = [] := by
  induction l with
  | nil => intro i; rfl
  | cons e rest ih =>
    intro i
    have hv : ¬(offset ≤ i ∧ i < s) := fun hh =>
      absurd (lt_of_lt_of_le hh.2 h) (not_lt.mpr hh.1)
    simp only [iterGo, if_neg hv]
    by_cases hi : i = s
    · rw [if_pos hi]
    · rw [if_neg hi, List.nil_append, ih]

theorem iterGo_spec {offset s : Nat} (hos : offset ≤ s) (l : List (String × α)) :
    ∀ i, i ≤ s →
      iterGo offset s l i = (l.drop (offset - i)).take (s - max i offset) := by
  induction l with
  | nil => intro i hi; simp [iterGo]
  | cons e rest ih =>
    intro i hi
    by_cases hieq : i = s
    · have hv : ¬(offset ≤ i ∧ i < s) := fun hh => absurd hh.2 (hieq ▸ lt_irrefl s)
      have hmax : max i offset = i := max_eq_left (hieq ▸ hos)
      simp only [iterGo, if_neg hv, if_pos hieq]
      rw [hmax, hieq, Nat.sub_self, List.take_zero]
    · have hlt : i < s := lt_of_le_of_ne hi hieq
      by_cases hoi : offset ≤ i
      · have hv : offset ≤ i ∧ i < s := ⟨hoi, hlt⟩
        simp only [iterGo, if_pos hv, if_neg hieq]
        rw [ih (i + 1) hlt]
        have h1 : offset - i = 0 := Nat.sub_eq_zero_of_le hoi
        have h2 : offset - (i + 1) = 0 := Nat.sub_eq_zero_of_le (le_trans hoi (Nat.le_succ i))
        have h3 : max i offset = i := max_eq_left hoi
        have h4 : max (i + 1) offset = i + 1 := max_eq_left (le_trans hoi (Nat.le_succ i))
        rw [h1, h2, h3, h4, List.drop_zero, List.drop_zero]
        have h5 : s - i = (s - (i + 1)) + 1 := by omega
        rw [h5, List.take_succ_cons, List.singleton_append]
      · have hv : ¬(offset ≤ i ∧ i < s) := fun hh => hoi hh.1
        simp only [iterGo, if_neg hv, if_neg hieq, List.nil_append]
        rw [ih (i + 1) hlt]
        have hio : i + 1 ≤ offset := Nat.succ_le_of_lt (lt_of_not_le hoi)
        have h3 : max i offset = offset := max_eq_right (le_of_not_le hoi)
        have h4 : max (i + 1) offset = offset := max_eq_right hio
        have h5 : offset - i = (offset - (i + 1)) + 1 := by omega
        rw [h3, h4, h5, List.drop_succ_cons]

theorem iterate_eq_window (q : quickList α) (offset n : Nat)
    (h : offset + n < uintCard) :
    q.iterate offset n = (q.drop offset).take n := by
  unfold iterate
  rw [Nat.mod_eq_of_lt h]
  by_cases hg : (q.length : Int) < toInt64 offset
  · rw [if_pos hg]
    have hW : offset < 2 ^ 64 := by
      have := h
      unfold uintCard at this
      omega
    have hoff : q.length < offset := by
      unfold toInt64 at hg
      by_cases hlt : offset < 2 ^ 63
      · rw [if_pos hlt] at hg
        exact_mod_cast hg
      · rw [if_neg hlt] at hg
        exfalso
        omega
    rw [List.drop_eq_nil_of_le (le_of_lt hoff), List.take_nil]
  · rw [if_neg hg]
    have := iterGo_spec (Nat.le_add_right offset n) q 0 (Nat.zero_le _)
    rw [this, Nat.sub_zero, max_eq_right (Nat.zero_le offset), Nat.add_sub_cancel_left]

theorem iterate_eq_nil_of_wrap (q : quickList α) (offset n : Nat)
    (h : (offset + n) % uintCard ≤ offset) :
    q.iterate offset n = [] := by
  unfold iterate
  by_cases hg : (q.length : Int) < toInt64 offset
  · rw [if_pos hg]
  · rw [if_neg hg]
    exact iterGo_of_le h q 0

theorem iterGo_sublist (offset s : Nat) (l : List (String × α)) :
    ∀ i, List.Sublist (iterGo offset s l i) l := by
  induction l with
  | nil => intro i; exact List.Sublist.refl []
  | cons e rest ih =>
    intro i
    simp only [iterGo]
    by_cases hv : offset ≤ i ∧ i < s
    · rw [if_pos hv]
      by_cases hi : i = s
      · rw [if_pos hi]
        exact (List.nil_sublist rest).cons₂ e
      · rw [if_neg hi, List.singleton_append]
        exact (ih (i + 1)).cons₂ e
    · rw [if_neg hv]
      by_cases hi : i = s
      · rw [if_pos hi]
        exact List.nil_sublist _
      · rw [if_neg hi, List.nil_append]
        exact (ih (i + 1)).cons e

theorem iterate_sublist (q : quickList α) (offset n : Nat) :
    List.Sublist (q.iterate offset n) q := by
  unfold iterate
  by_cases hg : (q.length : Int) < toInt64 offset
  · rw [if_pos hg]
    exact List.nil_sublist q
  · rw [if_neg hg]
    exact iterGo_sublist _ _ q 0

/-! ### Folding `set` over a batch of pairs (the shape of `GetClients`'s
callback writing each visited record back through its key) -/

theorem keysOf_foldl_set (f : String × α → α) (ps : List (String × α)) :
    ∀ q : quickList α, (∀ p ∈ ps, p.1 ∈ keysOf q) →
      keysOf (ps.foldl (fun acc p => acc.set p.1 (f p)) q) = keysOf q := by
  induction ps with
  | nil => intro q _; rfl
  | cons p rest ih =>
    intro q h
    have hp : p.1 ∈ keysOf q := h p (List.mem_cons_self p rest)
    have hset : keysOf (q.set p.1 (f p)) = keysOf q := by
      rw [keysOf_set, if_pos hp]
    rw [List.foldl_cons, ih (q.set p.1 (f p)) (by
      intro p' hp'
      rw [hset]
      exact h p' (List.mem_cons_of_mem p hp')), hset]

theorem length_foldl_set (f : String × α → α) (ps : List (String × α))
    (q : quickList α) (h : ∀ p ∈ ps, p.1 ∈ keysOf q) :
    (ps.foldl (fun acc p => acc.set p.1 (f p)) q).length = q.length := by
  rw [← keysOf_length, keysOf_foldl_set f ps q h, keysOf_length]

theorem getByID_foldl_set_not_mem (f : String × α → α) (ps : List (String × α))
    {k : String} (h : k ∉ ps.map Prod.fst) :
    ∀ q : quickList α,
      (ps.foldl (fun acc p => acc.set p.1 (f p)) q).getByID k = q.getByID k := by
  induction ps with
  | nil => intro q; rfl
  | cons p rest ih =>
    intro q
    rw [List.map_cons, List.mem_cons] at h
    push_neg at h
    rw [List.foldl_cons, ih h.2, getByID_set_ne _ _ h.1]

theorem getByID_foldl_set_mem (f : String × α → α) (ps : List (String × α))
    (hnd : (ps.map Prod.fst).Nodup) {k : String} {v : α} (hmem : (k, v) ∈ ps) :
    ∀ q : quickList α,
      (ps.foldl (fun acc p => acc.set p.1 (f p)) q).getByID k = some (f (k, v)) := by
  induction ps with
  | nil => exact absurd hmem (List.not_mem_nil (k, v))
  | cons p rest ih =>
    intro q
    rw [List.map_cons] at hnd
    rcases List.nodup_cons.mp hnd with ⟨hhead, htail⟩
    rcases List.mem_cons.mp hmem with heq | hrest
    · subst heq
      rw [List.foldl_cons, getByID_foldl_set_not_mem f rest hhead,
        getByID_set_self]
    · rw [List.foldl_cons, ih htail hrest]

theorem foldl_set_eq_append (ps : List (String × α)) :
    ∀ q : quickList α, (∀ p ∈ ps, p.1 ∉ keysOf q) → (ps.map Prod.fst).Nodup →
      ps.foldl (fun acc p => acc.set p.1 p.2) q = q ++ ps := by
  induction ps with
  | nil => intro q _ _; simp
  | cons p rest ih =>
    intro q h hnd
    rw [List.map_cons] at hnd
    rcases List.nodup_cons.mp hnd with ⟨hhead, htail⟩
    have hp : p.1 ∉ keysOf q := h p (List.mem_cons_self p rest)
    rw [List.foldl_cons, set_eq_append_of_not_mem q p.2 hp]
    have harg : ∀ p' ∈ rest, p'.1 ∉ keysOf (q ++ [p]) := by
      intro p' hp'
      rw [keysOf_append]
      intro hmem
      rcases List.mem_append.mp hmem with hq | hone
      · exact h p' (List.mem_cons_of_mem p hp') hq
      · rcases List.mem_singleton.mp hone with heq
        refine hhead ?_
        rw [← heq]
        exact List.mem_map_of_mem Prod.fst hp'
    have : (q ++ [p]) ++ rest = q ++ (p :: rest) := by
      rw [List.append_assoc, List.singleton_append]
    rw [ih (q ++ [p]) harg htail, this]

/-! ### Folding `set` repeatedly on one key (a re-subscribe / session
takeover sequence) -/

theorem keysOf_foldl_set_same (k : String) (vs : List α) :
    ∀ (v : α) (q : quickList α),
      keysOf ((v :: vs).foldl (fun acc w => acc.set k w) q) =
        if k ∈ keysOf q then keysOf q else keysOf q ++ [k] := by
  induction vs with
  | nil =>
    intro v q
    rw [List.foldl_cons, List.foldl_nil, keysOf_set]
  | cons v' vs' ih =>
    intro v q
    rw [List.foldl_cons]
    have step := ih v' (q.set k v)
    rw [List.foldl_cons] at step ⊢
    rw [step, if_pos (mem_keysOf_set_self q k v), keysOf_set]

theorem getByID_foldl_set_same_last (k : String) (vs : List α) (v₀ : α)
    (q : quickList α) :
    ((vs ++ [v₀]).foldl (fun acc w => acc.set k w) q).getByID k = some v₀ := by
  rw [List.foldl_append, List.foldl_cons, List.foldl_nil]
  exact getByID_set_self _ k v₀

end quickList

/-! ## Store-level helper lemmas -/

theorem newClientInfo_ClientId (client : ServerClient) :
    (newClientInfo client).ClientId = client.clientOptions.ClientID := rfl

theorem fillClientInfo_ClientId (c : Client) (r : StatsReader) :
    (fillClientInfo c r).ClientId = c.ClientId := by
  unfold fillClientInfo
  cases r c.ClientId <;> rfl

theorem getOffsetN_snd (page pageSize : Nat) :
    (getOffsetN page pageSize).2 = pageSize := rfl

theorem foldl_addClient_clientList (cls : List ServerClient) :
    ∀ s : Store, (cls.foldl Store.addClient s).clientList =
      cls.foldl
        (fun q c => quickList.set q (newClientInfo c).ClientId (newClientInfo c))
        s.clientList := by
  induction cls with
  | nil => intro s; rfl
  | cons c rest ih =>
    intro s
    rw [List.foldl_cons, List.foldl_cons, ih]
    rfl

theorem foldl_addClient_from_empty (cls : List ServerClient) (r : StatsReader)
    (hids : (cls.map fun c => c.clientOptions.ClientID).Nodup) :
    (cls.foldl Store.addClient (newStore r)).clientList =
      cls.map fun c => ((newClientInfo c).ClientId, newClientInfo c) := by
  have hpskeys : (cls.map fun c =>
      ((newClientInfo c).ClientId, newClientInfo c)).map Prod.fst =
      cls.map fun c => c.clientOptions.ClientID := by
    rw [List.map_map]
    rfl
  have e1 : cls.foldl
      (fun q c => quickList.set q (newClientInfo c).ClientId (newClientInfo c))
      ([] : quickList Client) =
      (cls.map fun c => ((newClientInfo c).ClientId, newClientInfo c)).foldl
        (fun q p => quickList.set q p.1 p.2) [] :=
    (List.foldl_map (fun c => ((newClientInfo c).ClientId, newClientInfo c))
      (fun q p => quickList.set q p.1 p.2) cls []).symm
  have e2 := quickList.foldl_set_eq_append
    (cls.map fun c => ((newClientInfo c).ClientId, newClientInfo c)) []
    (fun p _ => by simp [quickList.keysOf])
    (by rw [hpskeys]; exact hids)
  rw [foldl_addClient_clientList]
  show cls.foldl
      (fun q c => quickList.set q (newClientInfo c).ClientId (newClientInfo c))
      ([] : quickList Client) =
      cls.map fun c => ((newClientInfo c).ClientId, newClientInfo c)
  rw [e1, e2, List.nil_append]

/-! ## Concrete instances used by counterexamples and witnesses -/

/-- A concrete statistics record. -/
def statsEx : ClientStats := ⟨1, 2, 3, 4, 5, 6, 7, 8, 9⟩

/-- A statistics source knowing only client "c1". -/
def readerEx : StatsReader := fun x => if x = "c1" then some statsEx else none

/-- A concrete live connection for client "c1"; its options carry a
maximum queued-message count of 5 and a receive-maximum of 7. -/
def serverClientEx : ServerClient :=
  ⟨⟨"c1", "alice", 10, 30, 5, 5, 7⟩, 4, ⟨"1.2.3.4:5", "0.0.0.0:1883"⟩, 100⟩

/-- The projected record of `serverClientEx`. -/
def clientEx : Client := newClientInfo serverClientEx

/-- A store holding exactly client "c1", with `readerEx` as the live
statistics source. -/
def storeEx : Store := ⟨[("c1", clientEx)], [], readerEx⟩

/-! ## Claims -/

/-- C6: for every sequence of `set` calls with the same key the registry
holds exactly one entry for that key, with the value from the most
recent `set` and the position of the first `set` (an update of an
existing key never moves it, a fresh key appends at the tail); after a
`remove`, a subsequent `set` of that key appends a fresh entry at the
current tail; and the at-most-one-entry-per-key invariant (`WF`) is
preserved by both `set` and `remove`. -/
theorem quickList_one_entry_per_key {α : Type} (q : quickList α) (k : String)
    (v v₀ : α) (vs : List α) (hwf : q.WF) :
    (q.set k v).WF ∧
    (q.remove k).WF ∧
    (q.set k v).getByID k = some v ∧
    quickList.keysOf (q.set k v) =
      (if k ∈ quickList.keysOf q then quickList.keysOf q
       else quickList.keysOf q ++ [k]) ∧
    ((vs ++ [v₀]).foldl (fun acc w => acc.set k w) q).getByID k = some v₀ ∧
    quickList.keysOf ((vs ++ [v₀]).foldl (fun acc w => acc.set k w) q) =
      (if k ∈ quickList.keysOf q then quickList.keysOf q
       else quickList.keysOf q ++ [k]) ∧
    (k ∈ quickList.keysOf q → (quickList.keysOf q).count k = 1) ∧
    quickList.keysOf ((q.remove k).set k v) =
      quickList.keysOf (q.remove k) ++ [k] := by
  refine ⟨quickList.WF_set q k v hwf, quickList.WF_remove q k hwf,
    quickList.getByID_set_self q k v, quickList.keysOf_set q k v,
    quickList.getByID_foldl_set_same_last k vs v₀ q, ?_, ?_, ?_⟩
  · cases vs with
    | nil => simpa using quickList.keysOf_foldl_set_same k [] v₀ q
    | cons w ws => simpa using quickList.keysOf_foldl_set_same k (ws ++ [v₀]) w q
  · intro hmem
    exact List.count_eq_one_of_mem hwf hmem
  · rw [quickList.keysOf_set,
      if_neg (quickList.not_mem_keysOf_remove q k hwf)]

/-- C6 witness: a concrete two-entry registry; repeatedly setting key "b"
keeps one entry and ends at the last value. -/
theorem quickList_one_entry_per_key_witness :
    quickList.WF ([("a", 1), ("b", 2)] : quickList Nat) ∧
    quickList.getByID
      (([5, 6] ++ [9]).foldl (fun acc w => quickList.set acc "b" w)
        ([("a", 1), ("b", 2)] : quickList Nat)) "b" = some 9 :=
  ⟨by decide,
    (quickList_one_entry_per_key [("a", 1), ("b", 2)] "b" 7 9 [5, 6]
      (by decide)).2.2.2.2.1⟩

/-- C7: `remove` then `getByID` on any key — including one never inserted —
yields the absent result; `remove` of an absent key leaves the registry
unchanged; and `setClientDisconnected` of an absent client identifier
returns the store unchanged.  All three operations are total Lean
functions, so none can fail or panic. -/
theorem remove_then_get_absent {α : Type} (q : quickList α) (s : Store)
    (k : String) (now : Nat) (hwf : q.WF) :
    (q.remove k).getByID k = none ∧
    (k ∉ quickList.keysOf q → q.remove k = q) ∧
    (s.clientList.getByID k = none → s.setClientDisconnected k now = s) := by
  refine ⟨quickList.getByID_remove_self q k hwf, ?_, ?_⟩
  · intro h
    exact quickList.remove_eq_self_of_not_mem q h
  · intro h
    unfold Store.setClientDisconnected
    rw [h]

/-- C7 witness: removing the never-inserted key "zz" from a concrete
registry leaves lookup absent, and a disconnect of an unknown client
leaves the store unchanged. -/
theorem remove_then_get_absent_witness :
    quickList.WF ([("a", 1), ("b", 2)] : quickList Nat) ∧
    quickList.getByID
      (quickList.remove ([("a", 1), ("b", 2)] : quickList Nat) "zz") "zz" = none ∧
    storeEx.setClientDisconnected "nobody" 42 = storeEx :=
  ⟨by decide,
    (remove_then_get_absent [("a", 1), ("b", 2)] storeEx "zz" 42 (by decide)).1,
    (remove_then_get_absent [("a", 1), ("b", 2)] storeEx "nobody" 42
      (by decide)).2.2 (by decide)⟩

/-- C4 counterexample: over a registry with 2 entries, `iterate` with
windowStart 1 and windowSize `2^64 - 1` visits no entry, although the
claim demands `max 0 (min (2^64 - 1) (2 - 1)) = 1` visited entries: the
`uint` bound `offset + n` wraps to 0 and the loop breaks at the first
element, before reaching the window. -/
theorem iterate_overflow_counterexample :
    (quickList.iterate ([("a", 0), ("b", 1)] : quickList Nat) 1
        (uintCard - 1)).length = 0 ∧
    max 0 (min (uintCard - 1) (2 - 1)) = 1 := by
  constructor
  · decide
  · decide

/-- C4 (amended): provided `windowStart + windowSize` does not overflow
the 64-bit unsigned word, `iterate` visits exactly the entries at
positions `windowStart … windowStart + windowSize - 1` in insertion
order — `max 0 (min windowSize (m - windowStart))` of them, which `Nat`
subtraction (truncating at zero) renders as `min windowSize
(m - windowStart)` — and a windowStart past the end gives the empty
visitation with no error. -/
theorem iterate_window_exact {α : Type} (q : quickList α) (offset n : Nat)
    (h : offset + n < uintCard) :
    q.iterate offset n = (q.drop offset).take n ∧
    (q.iterate offset n).length = min n (q.length - offset) ∧
    (q.length < offset → q.iterate offset n = []) := by
  have hw := quickList.iterate_eq_window q offset n h
  refine ⟨hw, ?_, ?_⟩
  · rw [hw, List.length_take, List.length_drop]
  · intro hlt
    rw [hw, List.drop_eq_nil_of_le (le_of_lt hlt), List.take_nil]

/-- C4 witness: a window of size 1 starting at position 1 of a concrete
three-entry registry visits exactly the middle entry. -/
theorem iterate_window_exact_witness :
    1 + 1 < uintCard ∧
    quickList.iterate ([("a", 10), ("b", 20), ("c", 30)] : quickList Nat) 1 1 =
      [("b", 20)] :=
  ⟨by decide, by
    rw [(iterate_window_exact ([("a", 10), ("b", 20), ("c", 30)] : quickList Nat)
      1 1 (by decide)).1]
    decide⟩

/-- C1 counterexample: the distinct pairs ("a_b", "c") and ("a", "b_c")
concatenate to the same key "a_b_c".  Adding both leaves one record,
not two, and removing the pair ("a", "b_c") — which was never added —
detaches the record stored for ("a_b", "c"). -/
theorem addSubscription_collision_counterexample :
    ((((newStore fun _ => none).addSubscription "a_b"
          ⟨"c", 1, 0, false, false, 0⟩).addSubscription "a"
        ⟨"b_c", 1, 0, false, false, 0⟩).subscriptions).length = 1 ∧
    quickList.getByID
      (((newStore fun _ => none).addSubscription "a_b"
          ⟨"c", 1, 0, false, false, 0⟩).removeSubscription "a" "b_c").subscriptions
      ("a_b" ++ "_" ++ "c") = none := by
  constructor
  · decide
  · decide

/-- C1 (amended): re-subscribing the same (client, filter) pair updates
the one existing record in place — same keys, updated value, count one —
and two pairs whose concatenated keys `clientID + "_" + filter` differ
(which the unescaped separator does not guarantee for all distinct
pairs) are kept under distinct keys: both records are present and
removing one pair leaves the other's record intact. -/
theorem addSubscription_upsert_distinct_keys (s : Store) (c1 c2 : String)
    (sub1 sub2 sub1' : GmqttSubscription)
    (hsame : sub1'.topicName = sub1.topicName)
    (hkey : c1 ++ "_" ++ sub1.topicName ≠ c2 ++ "_" ++ sub2.topicName)
    (hwf : quickList.WF s.subscriptions) :
    quickList.keysOf
        (((s.addSubscription c1 sub1).addSubscription c1 sub1').subscriptions) =
      quickList.keysOf ((s.addSubscription c1 sub1).subscriptions) ∧
    quickList.getByID
        (((s.addSubscription c1 sub1).addSubscription c1 sub1').subscriptions)
        (c1 ++ "_" ++ sub1.topicName) = some (subInfoFor c1 sub1') ∧
    (quickList.keysOf ((s.addSubscription c1 sub1).subscriptions)).count
        (c1 ++ "_" ++ sub1.topicName) = 1 ∧
    quickList.getByID
        (((s.addSubscription c1 sub1).addSubscription c2 sub2).subscriptions)
        (c1 ++ "_" ++ sub1.topicName) = some (subInfoFor c1 sub1) ∧
    quickList.getByID
        (((s.addSubscription c1 sub1).addSubscription c2 sub2).subscriptions)
        (c2 ++ "_" ++ sub2.topicName) = some (subInfoFor c2 sub2) ∧
    quickList.getByID
        ((((s.addSubscription c1 sub1).addSubscription c2 sub2).removeSubscription
            c1 sub1.topicName).subscriptions)
        (c2 ++ "_" ++ sub2.topicName) = some (subInfoFor c2 sub2) := by
  simp only [Store.addSubscription, Store.removeSubscription,
    GmqttSubscription.GetFullTopicName, hsame]
  have hk1 := quickList.mem_keysOf_set_self s.subscriptions
    (c1 ++ "_" ++ sub1.topicName) (subInfoFor c1 sub1)
  refine ⟨?_, ?_, ?_, ?_, ?_, ?_⟩
  · rw [quickList.keysOf_set, if_pos hk1]
  · exact quickList.getByID_set_self _ _ _
  · exact List.count_eq_one_of_mem
      (quickList.WF_set s.subscriptions _ _ hwf) hk1
  · rw [quickList.getByID_set_ne _ _ hkey]
    exact quickList.getByID_set_self _ _ _
  · exact quickList.getByID_set_self _ _ _
  · rw [quickList.getByID_remove_ne _ (Ne.symm hkey)]
    exact quickList.getByID_set_self _ _ _

/-- C1 witness: two clients without underscores in their identifiers
subscribing to "sensors/+" and "x": both records present, re-subscribe
keeps a single record, removal of one leaves the other. -/
theorem addSubscription_upsert_distinct_keys_witness :
    ("c1" ++ "_" ++ "sensors/+" ≠ "c2" ++ "_" ++ "x") ∧
    quickList.WF (newStore (fun _ => none)).subscriptions ∧
    quickList.getByID
        (((((newStore fun _ => none).addSubscription "c1"
                ⟨"sensors/+", 1, 1, false, false, 0⟩).addSubscription "c2"
              ⟨"x", 2, 0, false, false, 0⟩).removeSubscription "c1"
            "sensors/+").subscriptions)
        ("c2" ++ "_" ++ "x") = some (subInfoFor "c2" ⟨"x", 2, 0, false, false, 0⟩) :=
  ⟨by decide, by decide,
    (addSubscription_upsert_distinct_keys (newStore fun _ => none) "c1" "c2"
      ⟨"sensors/+", 1, 1, false, false, 0⟩ ⟨"x", 2, 0, false, false, 0⟩
      ⟨"sensors/+", 3, 2, true, false, 0⟩ rfl (by decide) (by decide)).2.2.2.2.2⟩

/-- C2 counterexample: a connection whose options carry a maximum
queued-message count of 5 and a receive-maximum of 7 is projected into a
record whose `MaxQueue` field is 7 — `newClientInfo` fills the maximum
queued-message count from the receive-maximum option, not from the
maximum queued-message count option. -/
theorem newClientInfo_maxQueue_counterexample :
    (newClientInfo serverClientEx).MaxQueue ≠
      serverClientEx.clientOptions.MaxQueue ∧
    (newClientInfo serverClientEx).MaxQueue =
      serverClientEx.clientOptions.ReceiveMax := by
  constructor
  · decide
  · decide

/-- C2 (amended): `addClient` projects the connection into a fresh record
whose identity, version, keep-alive, session-expiry and maximum
in-flight fields equal the corresponding connection options, whose
maximum queued-message count equals the connection's receive-maximum
option (not its maximum queued-message count option), with
disconnected-at null and connected-at from the connection, and inserts
it keyed by the client identifier.  The width bounds reflect the Go
field types (`uint16` keep-alive and in-flight, one-byte version,
`uint16` receive-maximum), under which the casts are lossless. -/
theorem newClientInfo_projects_options (client : ServerClient) (s : Store)
    (hka : client.clientOptions.KeepAlive < 2 ^ 31)
    (hv : client.version < 2 ^ 31)
    (hmi : client.clientOptions.MaxInflight < 2 ^ 32)
    (hrm : client.clientOptions.ReceiveMax < 2 ^ 32) :
    (newClientInfo client).ClientId = client.clientOptions.ClientID ∧
    (newClientInfo client).Username = client.clientOptions.Username ∧
    (newClientInfo client).KeepAlive = client.clientOptions.KeepAlive ∧
    (newClientInfo client).Version = client.version ∧
    (newClientInfo client).RemoteAddr = client.connection.remoteAddr ∧
    (newClientInfo client).LocalAddr = client.connection.localAddr ∧
    (newClientInfo client).SessionExpiry = client.clientOptions.SessionExpiry ∧
    (newClientInfo client).MaxInflight = client.clientOptions.MaxInflight ∧
    (newClientInfo client).MaxQueue = client.clientOptions.ReceiveMax ∧
    (newClientInfo client).DisconnectedAt = none ∧
    (newClientInfo client).ConnectedAt = client.connectedAt ∧
    (s.addClient client).clientList.getByID client.clientOptions.ClientID =
      some (newClientInfo client) := by
  have hint32 : ∀ x : Nat, x < 2 ^ 31 → toInt32 x = (x : Int) := by
    intro x hx
    unfold toInt32
    have hx32 : x % 2 ^ 32 = x := Nat.mod_eq_of_lt (by omega)
    rw [hx32, if_pos hx]
    omega
  have huint32 : ∀ x : Nat, x < 2 ^ 32 → toUInt32 x = x := fun x hx =>
    Nat.mod_eq_of_lt hx
  refine ⟨rfl, rfl, ?_, ?_, rfl, rfl, rfl, ?_, ?_, rfl, rfl, ?_⟩
  · exact hint32 _ hka
  · exact hint32 _ hv
  · exact huint32 _ hmi
  · exact huint32 _ hrm
  · show quickList.getByID
      (s.clientList.set (newClientInfo client).ClientId (newClientInfo client))
      client.clientOptions.ClientID = some (newClientInfo client)
    rw [newClientInfo_ClientId]
    exact quickList.getByID_set_self _ _ _

/-- C2 witness: the concrete connection `serverClientEx` projects to a
record with its client identifier, a null disconnected-at, and is
stored under "c1". -/
theorem newClientInfo_projects_options_witness :
    (serverClientEx.clientOptions.KeepAlive < 2 ^ 31 ∧
      serverClientEx.version < 2 ^ 31 ∧
      serverClientEx.clientOptions.MaxInflight < 2 ^ 32 ∧
      serverClientEx.clientOptions.ReceiveMax < 2 ^ 32) ∧
    (newClientInfo serverClientEx).DisconnectedAt = none ∧
    ((newStore readerEx).addClient serverClientEx).clientList.getByID "c1" =
      some (newClientInfo serverClientEx) :=
  ⟨⟨by decide, by decide, by decide, by decide⟩,
    (newClientInfo_projects_options serverClientEx (newStore readerEx)
      (by decide) (by decide) (by decide) (by decide)).2.2.2.2.2.2.2.2.2.1,
    (newClientInfo_projects_options serverClientEx (newStore readerEx)
      (by decide) (by decide) (by decide) (by decide)).2.2.2.2.2.2.2.2.2.2.2⟩

/-- C8: `GetClientByID` returns the stored record with its stats block
overwritten by the live statistics source's current values, the absent
result (nil) for an unknown identifier — leaving the store untouched —
and, when the source has no data for the identifier, the record with
its stats block at its prior value; every case is a total computation,
so no error is raised. -/
theorem getClientByID_enrichment (s : Store) (id : String) (c : Client)
    (sts : ClientStats) :
    (s.clientList.getByID id = none →
      (s.GetClientByID id).1 = none ∧ (s.GetClientByID id).2 = s) ∧
    (s.clientList.getByID id = some c → s.statsReader c.ClientId = none →
      (s.GetClientByID id).1 = some c) ∧
    (s.clientList.getByID id = some c → s.statsReader c.ClientId = some sts →
      (s.GetClientByID id).1 = some
        { c with
          SubscriptionsCurrent := toUInt32 sts.subscriptionsCurrent
          SubscriptionsTotal := toUInt32 sts.subscriptionsTotal
          PacketsReceivedBytes := sts.bytesReceived
          PacketsReceivedNums := sts.receivedTotal
          PacketsSendBytes := sts.bytesSent
          PacketsSendNums := sts.sentTotal
          MessageDropped := sts.droppedTotal
          InflightLen := toUInt32 sts.inflightCurrent
          QueueLen := toUInt32 sts.queuedCurrent }) := by
  refine ⟨?_, ?_, ?_⟩
  · intro h
    simp only [Store.GetClientByID, h]
    exact ⟨trivial, trivial⟩
  · intro h hst
    simp only [Store.GetClientByID, h, fillClientInfo, hst]
  · intro h hst
    simp only [Store.GetClientByID, h, fillClientInfo, hst]

/-- C8 witness: on the concrete one-client store, looking up "c1"
returns the stored record with the stats block overwritten by
`statsEx`, and looking up an unknown identifier yields nil. -/
theorem getClientByID_enrichment_witness :
    (storeEx.clientList.getByID "c1" = some clientEx ∧
      storeEx.statsReader clientEx.ClientId = some statsEx ∧
      storeEx.clientList.getByID "ghost" = none) ∧
    (storeEx.GetClientByID "c1").1 = some
      { clientEx with
        SubscriptionsCurrent := toUInt32 statsEx.subscriptionsCurrent
        SubscriptionsTotal := toUInt32 statsEx.subscriptionsTotal
        PacketsReceivedBytes := statsEx.bytesReceived
        PacketsReceivedNums := statsEx.receivedTotal
        PacketsSendBytes := statsEx.bytesSent
        PacketsSendNums := statsEx.sentTotal
        MessageDropped := statsEx.droppedTotal
        InflightLen := toUInt32 statsEx.inflightCurrent
        QueueLen := toUInt32 statsEx.queuedCurrent } ∧
    (storeEx.GetClientByID "ghost").1 = none :=
  ⟨⟨by decide, by decide, by decide⟩,
    (getClientByID_enrichment storeEx "c1" clientEx statsEx).2.2 (by decide)
      (by decide),
    ((getClientByID_enrichment storeEx "ghost" clientEx statsEx).1
      (by decide)).1⟩

/-- C3 counterexample: a `GetClients` read mutates the backing store — the
stats block computed during the read is persisted into the stored
record, so the registry state after the call differs from the state
before it, contradicting the claim that every record held in the
registry is the same as before the call. -/
theorem getClients_mutates_store_counterexample :
    ((storeEx.GetClients 1 1).2).clientList ≠ storeEx.clientList := by
  decide

/-- C3 (amended): list and getByID enrich the stored records in place and
hand back those same records: after `GetClients`, the key set and order
are unchanged, each visited entry now holds (and a later read returns)
its enriched record, every non-visited entry is untouched, and the
returned slice is exactly the stored records of the window, enriched;
`GetClientByID` likewise persists the enrichment it returns. -/
theorem getClients_enrich_in_place (s : Store) (page pageSize : Nat)
    (id : String) (c : Client) (k : String) (v : Client)
    (hwf : quickList.WF s.clientList) :
    quickList.keysOf ((s.GetClients page pageSize).2.clientList) =
      quickList.keysOf s.clientList ∧
    ((k, v) ∈ s.clientList.iterate (getOffsetN page pageSize).1
        (getOffsetN page pageSize).2 →
      quickList.getByID ((s.GetClients page pageSize).2.clientList) k =
        some (fillClientInfo v s.statsReader)) ∧
    (k ∉ (s.clientList.iterate (getOffsetN page pageSize).1
          (getOffsetN page pageSize).2).map Prod.fst →
      quickList.getByID ((s.GetClients page pageSize).2.clientList) k =
        s.clientList.getByID k) ∧
    (s.GetClients page pageSize).1.1 =
      (s.clientList.iterate (getOffsetN page pageSize).1
          (getOffsetN page pageSize).2).map
        (fun p => fillClientInfo p.2 s.statsReader) ∧
    (s.clientList.getByID id = some c →
      quickList.getByID ((s.GetClientByID id).2.clientList) id =
        some (fillClientInfo c s.statsReader)) := by
  have hsub := quickList.iterate_sublist s.clientList
    (getOffsetN page pageSize).1 (getOffsetN page pageSize).2
  have hmem : ∀ p ∈ s.clientList.iterate (getOffsetN page pageSize).1
      (getOffsetN page pageSize).2, p.1 ∈ quickList.keysOf s.clientList := by
    intro p hp
    exact List.mem_map_of_mem Prod.fst (hsub.subset hp)
  have hnd : ((s.clientList.iterate (getOffsetN page pageSize).1
      (getOffsetN page pageSize).2).map Prod.fst).Nodup :=
    List.Nodup.sublist (hsub.map Prod.fst) hwf
  refine ⟨?_, ?_, ?_, rfl, ?_⟩
  · exact quickList.keysOf_foldl_set _ _ s.clientList hmem
  · intro hv
    exact quickList.getByID_foldl_set_mem _ _ hnd hv s.clientList
  · intro hk
    exact quickList.getByID_foldl_set_not_mem _ _ hk s.clientList
  · intro h
    simp only [Store.GetClientByID, h]
    exact quickList.getByID_set_self _ _ _

/-- C3 witness: on the concrete one-client store, after `GetClients 1 1`
the stored record for "c1" is the enriched record — the read persisted
the stats into the store. -/
theorem getClients_enrich_in_place_witness :
    quickList.WF storeEx.clientList ∧
    ("c1", clientEx) ∈ storeEx.clientList.iterate (getOffsetN 1 1).1
      (getOffsetN 1 1).2 ∧
    quickList.getByID ((storeEx.GetClients 1 1).2.clientList) "c1" =
      some (fillClientInfo clientEx storeEx.statsReader) :=
  ⟨by decide, by decide,
    (getClients_enrich_in_place storeEx 1 1 "c1" clientEx "c1" clientEx
      (by decide)).2.1 (by decide)⟩

/-- C5 counterexample: on a one-entry registry, `list` with page
`2^63 + 1` and pageSize 2 returns one record, although the claimed
window `[(page-1)·pageSize, (page-1)·pageSize + pageSize)` starts at
`2^64`, past the end of the registry, so the claim demands an empty
list: the `uint` offset `(page-1)*pageSize` wraps to 0. -/
theorem getClients_pagination_overflow_counterexample :
    ((storeEx.GetClients (2 ^ 63 + 1) 2).1.1).length = 1 ∧
    storeEx.clientList.length ≤ (2 ^ 63 + 1 - 1) * 2 := by
  constructor
  · decide
  · decide

/-- C5 (amended): for every page ≥ 1 and pageSize with
`page · pageSize < 2^64` (no unsigned overflow in the offset
computation), `GetClients` returns exactly the records at positions
`[(page-1)·pageSize, (page-1)·pageSize + pageSize)` in insertion order
(each enriched), the true surviving-entry total, and a nil error;
pageSize = 0 gives an empty window and a page past the end gives the
empty list with the true total, no error in either case. -/
theorem getClients_pagination_exact (s : Store) (page pageSize : Nat)
    (h1 : 1 ≤ page) (hov : page * pageSize < uintCard)
    (hlen : s.clientList.length < 2 ^ 32) :
    (s.GetClients page pageSize).1.1 =
      ((s.clientList.drop ((page - 1) * pageSize)).take pageSize).map
        (fun p => fillClientInfo p.2 s.statsReader) ∧
    (s.GetClients page pageSize).1.2.1 = s.clientList.length ∧
    (s.GetClients page pageSize).1.2.2 = none ∧
    (pageSize = 0 → (s.GetClients page pageSize).1.1 = []) ∧
    (s.clientList.length ≤ (page - 1) * pageSize →
      (s.GetClients page pageSize).1.1 = []) := by
  have hoffset : (getOffsetN page pageSize).1 = (page - 1) * pageSize := by
    show ((page + (uintCard - 1)) * pageSize) % uintCard = (page - 1) * pageSize
    have hrw : page + (uintCard - 1) = (page - 1) + uintCard := by
      unfold uintCard at *
      omega
    rw [hrw, Nat.add_mul, Nat.add_mul_mod_self_left]
    exact Nat.mod_eq_of_lt
      (lt_of_le_of_lt (Nat.mul_le_mul_right pageSize (Nat.sub_le page 1)) hov)
  have hsum : (page - 1) * pageSize + pageSize = page * pageSize := by
    have h2 : page - 1 + 1 = page := Nat.succ_pred_eq_of_pos h1
    rw [← h2, Nat.succ_mul, h2]
  have hvisited : s.clientList.iterate (getOffsetN page pageSize).1 pageSize =
      (s.clientList.drop ((page - 1) * pageSize)).take pageSize := by
    rw [hoffset]
    exact quickList.iterate_eq_window s.clientList _ pageSize (hsum ▸ hov)
  have hsubl := quickList.iterate_sublist s.clientList
    (getOffsetN page pageSize).1 (getOffsetN page pageSize).2
  have hmemv : ∀ p ∈ s.clientList.iterate (getOffsetN page pageSize).1
      (getOffsetN page pageSize).2, p.1 ∈ quickList.keysOf s.clientList := by
    intro p hp
    exact List.mem_map_of_mem Prod.fst (hsubl.subset hp)
  have hA : (s.GetClients page pageSize).1.1 =
      ((s.clientList.drop ((page - 1) * pageSize)).take pageSize).map
        (fun p => fillClientInfo p.2 s.statsReader) := by
    simp only [Store.GetClients, getOffsetN_snd]
    rw [hvisited]
  have hB : (s.GetClients page pageSize).1.2.1 = s.clientList.length := by
    simp only [Store.GetClients, getOffsetN_snd]
    rw [show (getOffsetN page pageSize).2 = pageSize from rfl] at hmemv
    rw [quickList.length_foldl_set _ _ s.clientList hmemv]
    exact Nat.mod_eq_of_lt hlen
  refine ⟨hA, hB, rfl, ?_, ?_⟩
  · intro h0
    rw [hA, h0, List.take_zero, List.map_nil]
  · intro hpast
    rw [hA, List.drop_eq_nil_of_le hpast, List.take_nil, List.map_nil]

/-- C5 witness: page 2 of size 10 over the one-entry store is past the
end: empty list, total 1, nil error. -/
theorem getClients_pagination_exact_witness :
    (1 ≤ 2 ∧ 2 * 10 < uintCard ∧ storeEx.clientList.length < 2 ^ 32 ∧
      storeEx.clientList.length ≤ (2 - 1) * 10) ∧
    (storeEx.GetClients 2 10).1.1 = [] ∧
    (storeEx.GetClients 2 10).1.2.1 = storeEx.clientList.length :=
  ⟨⟨by decide, by decide, by decide, by decide⟩,
    (getClients_pagination_exact storeEx 2 10 (by decide) (by decide)
      (by decide)).2.2.2.2 (by decide),
    (getClients_pagination_exact storeEx 2 10 (by decide) (by decide)
      (by decide)).2.1⟩

/-- C9: with every public operation one atomic critical section under the
registry's exclusive lock, a concurrent execution of `addClient` calls
is some sequential order of them; for every such order of connections
with pairwise-distinct client identifiers, `GetClients(1, total)`
returns exactly one record per identifier — in insertion order, with
no duplicates and no omissions — and the true total. -/
theorem concurrent_addClient_list_complete (r : StatsReader)
    (cls : List ServerClient)
    (hids : (cls.map fun c => c.clientOptions.ClientID).Nodup)
    (hlen : cls.length < 2 ^ 32) :
    (((cls.foldl Store.addClient (newStore r)).GetClients 1 cls.length).1.1.map
        Client.ClientId = cls.map fun c => c.clientOptions.ClientID) ∧
    (((cls.foldl Store.addClient (newStore r)).GetClients 1 cls.length).1.1.map
        Client.ClientId).Nodup ∧
    ((cls.foldl Store.addClient (newStore r)).GetClients 1 cls.length).1.1.length =
      cls.length ∧
    ((cls.foldl Store.addClient (newStore r)).GetClients 1 cls.length).1.2.1 =
      cls.length := by
  have hclientList : (cls.foldl Store.addClient (newStore r)).clientList =
      cls.map fun c => ((newClientInfo c).ClientId, newClientInfo c) :=
    foldl_addClient_from_empty cls r hids
  have hoff : (getOffsetN 1 cls.length).1 = 0 := by
    show ((1 + (uintCard - 1)) * cls.length) % uintCard = 0
    have h1 : 1 + (uintCard - 1) = uintCard := by
      unfold uintCard
      omega
    rw [h1, Nat.mul_mod_right]
  have hvis : (cls.foldl Store.addClient (newStore r)).clientList.iterate
      (getOffsetN 1 cls.length).1 cls.length =
      cls.map fun c => ((newClientInfo c).ClientId, newClientInfo c) := by
    rw [hclientList, hoff]
    have hw := quickList.iterate_eq_window
      (cls.map fun c => ((newClientInfo c).ClientId, newClientInfo c)) 0
      cls.length (by unfold uintCard at *; omega)
    rw [hw, List.drop_zero]
    have hl : (cls.map fun c =>
        ((newClientInfo c).ClientId, newClientInfo c)).length = cls.length :=
      List.length_map cls _
    rw [← hl, List.take_length]
  have hrs : ((cls.foldl Store.addClient (newStore r)).GetClients 1
      cls.length).1.1 =
      (cls.map fun c => ((newClientInfo c).ClientId, newClientInfo c)).map
        (fun p => fillClientInfo p.2
          (cls.foldl Store.addClient (newStore r)).statsReader) := by
    simp only [Store.GetClients, getOffsetN_snd]
    rw [hvis]
  have hc1 : ((cls.foldl Store.addClient (newStore r)).GetClients 1
      cls.length).1.1.map Client.ClientId =
      cls.map fun c => c.clientOptions.ClientID := by
    rw [hrs, List.map_map, List.map_map]
    refine List.map_congr_left ?_
    intro c _
    show (fillClientInfo (newClientInfo c) _).ClientId = c.clientOptions.ClientID
    rw [fillClientInfo_ClientId, newClientInfo_ClientId]
  refine ⟨hc1, ?_, ?_, ?_⟩
  · rw [hc1]
    exact hids
  · rw [hrs, List.length_map, List.length_map]
  · simp only [Store.GetClients, getOffsetN_snd]
    rw [hvis, quickList.length_foldl_set _ _ _ (by
      rw [hclientList]
      intro p hp
      exact List.mem_map_of_mem Prod.fst hp), hclientList]
    rw [List.length_map]
    exact Nat.mod_eq_of_lt hlen

/-- C9 witness: the single connection "c1" added and then listed in full
returns exactly the one identifier. -/
theorem concurrent_addClient_list_complete_witness :
    (([serverClientEx].map fun c => c.clientOptions.ClientID).Nodup ∧
      ([serverClientEx] : List ServerClient).length < 2 ^ 32) ∧
    (([serverClientEx].foldl Store.addClient (newStore readerEx)).GetClients 1
        ([serverClientEx] : List ServerClient).length).1.1.map Client.ClientId =
      [serverClientEx].map fun c => c.clientOptions.ClientID :=
  ⟨⟨by decide, by decide⟩,
    (concurrent_addClient_list_complete readerEx [serverClientEx] (by decide)
      (by decide)).1⟩

/-- C10: calling the listing operations with page = 0 makes the unsigned
offset `(page-1)·pageSize` wrap around (to `2^64 - pageSize` for any
pageSize ≥ 1); both `GetClients` and `GetSubscriptions` nevertheless
terminate, returning an empty record list, the true surviving-entry
count, a nil error, and an unchanged registry. -/
theorem getClients_page_zero_total (s : Store) (pageSize : Nat)
    (hps : pageSize < uintCard) (hcl : s.clientList.length < 2 ^ 32)
    (hsub : s.subscriptions.length < 2 ^ 32) :
    ((s.GetClients 0 pageSize).1.1 = [] ∧
      (s.GetClients 0 pageSize).1.2.1 = s.clientList.length ∧
      (s.GetClients 0 pageSize).1.2.2 = none ∧
      (s.GetClients 0 pageSize).2.clientList = s.clientList) ∧
    ((s.GetSubscriptions 0 pageSize).1 = [] ∧
      (s.GetSubscriptions 0 pageSize).2.1 = s.subscriptions.length ∧
      (s.GetSubscriptions 0 pageSize).2.2 = none) ∧
    (1 ≤ pageSize → (getOffsetN 0 pageSize).1 = uintCard - pageSize) := by
  have hwrap : ((getOffsetN 0 pageSize).1 + pageSize) % uintCard = 0 := by
    show (((0 + (uintCard - 1)) * pageSize) % uintCard + pageSize) % uintCard = 0
    rw [Nat.mod_add_mod]
    have h1 : (0 + (uintCard - 1)) * pageSize + pageSize = uintCard * pageSize := by
      have : 1 ≤ uintCard := by unfold uintCard; omega
      rw [Nat.zero_add, Nat.sub_mul, Nat.one_mul,
        Nat.sub_add_cancel (Nat.le_mul_of_pos_left pageSize (by unfold uintCard; omega))]
    rw [h1, Nat.mul_mod_right]
  have hcl0 : s.clientList.iterate (getOffsetN 0 pageSize).1
      (getOffsetN 0 pageSize).2 = [] :=
    quickList.iterate_eq_nil_of_wrap s.clientList _ _
      (by rw [getOffsetN_snd, hwrap]; exact Nat.zero_le _)
  have hsub0 : s.subscriptions.iterate (getOffsetN 0 pageSize).1
      (getOffsetN 0 pageSize).2 = [] :=
    quickList.iterate_eq_nil_of_wrap s.subscriptions _ _
      (by rw [getOffsetN_snd, hwrap]; exact Nat.zero_le _)
  refine ⟨⟨?_, ?_, rfl, ?_⟩, ⟨?_, ?_, rfl⟩, ?_⟩
  · simp only [Store.GetClients]
    rw [hcl0, List.map_nil]
  · simp only [Store.GetClients]
    rw [hcl0, List.foldl_nil]
    exact Nat.mod_eq_of_lt hcl
  · simp only [Store.GetClients]
    rw [hcl0, List.foldl_nil]
  · simp only [Store.GetSubscriptions]
    rw [hsub0, List.map_nil]
  · simp only [Store.GetSubscriptions]
    exact Nat.mod_eq_of_lt hsub
  · intro h1
    show ((0 + (uintCard - 1)) * pageSize) % uintCard = uintCard - pageSize
    unfold uintCard at *
    omega

/-- C10 witness: page 0 with pageSize 3 on the concrete store returns the
empty list and total 1, and the wrapped offset is `2^64 - 3`. -/
theorem getClients_page_zero_total_witness :
    (3 < uintCard ∧ storeEx.clientList.length < 2 ^ 32 ∧
      storeEx.subscriptions.length < 2 ^ 32) ∧
    (storeEx.GetClients 0 3).1.1 = [] ∧
    (storeEx.GetClients 0 3).1.2.1 = storeEx.clientList.length ∧
    (getOffsetN 0 3).1 = uintCard - 3 :=
  ⟨⟨by decide, by decide, by decide⟩,
    (getClients_page_zero_total storeEx 3 (by decide) (by decide) (by decide)).1.1,
    (getClients_page_zero_total storeEx 3 (by decide) (by decide)
      (by decide)).1.2.1,
    (getClients_page_zero_total storeEx 3 (by decide) (by decide)
      (by decide)).2.2 (by decide)⟩

end GmqttAdmin
